import Mathlib

/-!
Verification development for the wp-handbook-converter CLI (src/cli.js).

The JavaScript source is shallowly embedded: JS strings are modeled through
the character list of a Lean String, JS string primitives (split, replace,
includes, startsWith, endsWith) are given executable structural definitions,
the file system is an explicit state (directory list plus an association
list from paths to file contents), and the asynchronous HTTP transport is
abstracted as a function from page numbers to responses.  The generic
turndown HTML-to-markdown conversion is an external library and is
abstracted as a function parameter; the custom turndown rules registered in
cli.js (language inference, unescape list, fence construction) are embedded
in full.
-/

namespace Wp

/-! ### JS string primitives, modeled on character lists -/

/-- Embeds the JS expression s.includes(pat) for strings: true when pat
occurs as a contiguous substring of s. -/
def jsIncludes (s pat : List Char) : Bool :=
  match s with
  | [] => pat.isEmpty
  | _ :: rest => pat.isPrefixOf s || jsIncludes rest pat

/-- Worker for jsSplit; fuel is an upper bound on the number of characters
still to be scanned, so the recursion is structural.  The accumulator holds
the current piece in reverse. -/
def jsSplitGo (sep : List Char) : Nat → List Char → List Char → List (List Char)
  | 0, _, acc => [acc.reverse]
  | _ + 1, [], acc => [acc.reverse]
  | fuel + 1, c :: rest, acc =>
    if sep.isPrefixOf (c :: rest) then
      acc.reverse :: jsSplitGo sep fuel ((c :: rest).drop sep.length) []
    else
      jsSplitGo sep fuel rest (c :: acc)

/-- Embeds the JS expression s.split(sep): the list of pieces of s between
non-overlapping occurrences of sep, scanning left to right.  An empty
separator splits into single characters, as in JS. -/
def jsSplit (s sep : List Char) : List (List Char) :=
  if sep.isEmpty then s.map (fun c => [c])
  else jsSplitGo sep (s.length + 1) s []

/-- Worker for jsReplaceAll, with the same fuel discipline as jsSplitGo. -/
def jsReplaceAllGo (pat repl : List Char) : Nat → List Char → List Char
  | 0, s => s
  | _ + 1, [] => []
  | fuel + 1, c :: rest =>
    if pat.isPrefixOf (c :: rest) then
      repl ++ jsReplaceAllGo pat repl fuel ((c :: rest).drop pat.length)
    else
      c :: jsReplaceAllGo pat repl fuel rest

/-- Embeds a JS global literal regex replace: every non-overlapping
occurrence of pat in s, found scanning left to right, is replaced by repl.
Replacement text is not rescanned, matching JS semantics. -/
def jsReplaceAll (s pat repl : List Char) : List Char :=
  if pat.isEmpty then s else jsReplaceAllGo pat repl (s.length + 1) s

/-! ### Markdown renderer: the custom turndown rules of cli.js -/

/-- The codeLanguages mapping of cli.js, in object key order. -/
def codeLanguages : List (String × String) :=
  [("css", "css"), ("bash", "bash"), ("php", "php"),
   ("yaml", "yaml"), ("xml", "xml"), ("jscript", "javascript")]

/-- Embeds the reduce over Object.keys(codeLanguages) in the precode rule of
cli.js: starting from undefined, each key contained in the class attribute
overwrites the accumulator with its mapped language. -/
def inferLanguage (classList : String) : Option String :=
  codeLanguages.foldl
    (fun currentLanguage language =>
      if jsIncludes classList.data language.1.data then some language.2
      else currentLanguage)
    none

/-- Embeds the filter of the turndown rule named precode to code: the node
is a PRE element whose class attribute exists and contains brush:. -/
def precodeFilter (nodeName : String) (classList : Option String) : Bool :=
  match classList with
  | some cl => nodeName = "PRE" && jsIncludes cl.data "brush:".data
  | none => false

/-- Embeds the unEscapes entry with source regex caret backslash-run space:
one or more leading backslashes followed by a space are replaced by a plus
sign and a space.  The anchor means at most one replacement, at the start. -/
def unEscapeLeadingPlus (s : List Char) : List Char :=
  let run := s.takeWhile (fun c => c = '\\')
  if 0 < run.length && ((s.drop run.length).take 1 = [' ']) then
    '+' :: ' ' :: s.drop (run.length + 1)
  else s

/-- Embeds the reduce over the unEscapes list of cli.js: the fourteen
find-and-replace passes applied in order to the code block content. -/
def unEscape (content : List Char) : List Char :=
  let s := jsReplaceAll content "\\\\".data "\\".data
  let s := jsReplaceAll s "\\*".data "*".data
  let s := jsReplaceAll s "\\-".data "-".data
  let s := unEscapeLeadingPlus s
  let s := jsReplaceAll s "\\=".data "=".data
  let s := jsReplaceAll s "\\`".data "`".data
  let s := jsReplaceAll s "\\~~~".data "~~~".data
  let s := jsReplaceAll s "\\[".data "[".data
  let s := jsReplaceAll s "\\]".data "]".data
  let s := jsReplaceAll s "\\>".data ">".data
  let s := jsReplaceAll s "\\_".data "_".data
  let s := jsReplaceAll s "&quot;".data "\"".data
  let s := jsReplaceAll s "&lt;".data "<".data
  let s := jsReplaceAll s "&gt;".data ">".data
  s

/-- Embeds the br removal regex of the precode rule: a leading br tag
followed by a blank line, or any br tag followed by a newline, becomes a
single newline. -/
def removeBrTags (s : List Char) : List Char :=
  if "<br />\n\n".data.isPrefixOf s then
    "\n".data ++ jsReplaceAll (s.drop 8) "<br />\n".data "\n".data
  else jsReplaceAll s "<br />\n".data "\n".data

/-- Embeds the paragraph wrapper removal regex of the precode rule: a
closing p tag at the very start and an opening p tag at the very end are
dropped. -/
def removePWrap (s : List Char) : List Char :=
  let s1 := if "</p>".data.isPrefixOf s then s.drop 4 else s
  if "<p>".data.isSuffixOf s1 then s1.take (s1.length - 3) else s1

/-- Embeds the removal of a single leading newline in the precode rule. -/
def removeLeadingNewline (s : List Char) : List Char :=
  match s with
  | '\n' :: rest => rest
  | other => other

/-- Embeds the replacement function of the turndown rule named precode to
code in cli.js: infer the language from the class attribute, unescape the
content, strip br tags, the paragraph wrapper and a leading newline, and
wrap the result in a fenced code block with the language tag, or none, on
the opening fence. -/
def precodeReplacement (content classList : String) : String :=
  let codeLanguage := inferLanguage classList
  let c1 := unEscape content.data
  let c2 := removeBrTags c1
  let c3 := removePWrap c2
  let c4 := removeLeadingNewline c3
  ⟨"```".data ++ (codeLanguage.getD "").data ++ "\n".data ++ c4 ++ "```".data⟩

/-! ### Path resolver (generateFiles, lines 204 to 218 of cli.js) -/

/-- One remote content entry, the Item shape of the collection endpoint.
Fields absent in JS are modeled as the empty string, which is exactly the
falsy case the source tests for. -/
structure Item where
  parent : Int
  link : String
  slug : String
  title : String
  content : String
deriving DecidableEq, Repr

/-- The synthesized root path of generateFiles used when no usable root
item exists, built from the normalized configuration values. -/
def fallbackRootPath (subdomain team handbook : String) : String :=
  "https://" ++ subdomain ++ "wordpress.org/" ++ team ++ handbook ++ "/"

/-- Embeds root determination in generateFiles: the first item whose parent
is zero yields the part of its link before the first occurrence of its
slug; when that item is missing or has an empty link or slug, the
synthesized fallback is used instead. -/
def rootPathOf (subdomain team handbook : String) (allPosts : List Item) : String :=
  match allPosts.find? (fun item => item.parent == 0) with
  | some rootItem =>
    if rootItem.link ≠ "" ∧ rootItem.slug ≠ "" then
      ⟨(jsSplit rootItem.link.data rootItem.slug.data).headD []⟩
    else fallbackRootPath subdomain team handbook
  | none => fallbackRootPath subdomain team handbook

/-- Embeds the per-item path computation of generateFiles: element one of
link split on the root path, or the slug when the split produced a single
piece, with one trailing slash trimmed; an empty result becomes index. -/
def itemPath (rootPath : String) (item : Item) : String :=
  let parts := jsSplit item.link.data rootPath.data
  let pathSegment : Option (List Char) := parts[1]?
  let base := pathSegment.getD item.slug.data
  let trimmed := if "/".data.isSuffixOf base then base.take (base.length - 1) else base
  if trimmed.isEmpty then "index" else ⟨trimmed⟩

/-- The two-item collection of the root stripping example in the spec. -/
def c1Items : List Item :=
  [⟨0, "https://x/team/hb/", "hb", "", ""⟩,
   ⟨1, "https://x/team/hb/sub-page/", "sub-page", "", ""⟩]

/-! ### Paginated fetcher (getAll, lines 124 to 163 of cli.js) -/

/-- One HTTP response of the collection endpoint: the ok flag and status of
the fetch result, the x-wp-totalpages header, and the JSON body. -/
structure Response where
  ok : Bool
  status : Nat
  totalPages : Nat
  body : List Item
deriving DecidableEq

/-- The error thrown by getAll on a non-success page response, carrying the
failing page and the HTTP status. -/
structure FetchError where
  page : Nat
  status : Nat
deriving DecidableEq

/-- Embeds the page loop of getAll: fetch each page of the list in order,
abort at the first non-success response, concatenate the bodies. -/
def fetchPages (f : Nat → Response) : List Nat → Except FetchError (List Item)
  | [] => .ok []
  | p :: ps =>
    let r := f p
    if r.ok then
      match fetchPages f ps with
      | .ok rest => .ok (r.body ++ rest)
      | .error e => .error e
    else .error ⟨p, r.status⟩

/-- The pages of the list actually requested by the page loop: every page
up to and including the first failing one. -/
def requestedAfter (f : Nat → Response) : List Nat → List Nat
  | [] => []
  | p :: ps => if (f p).ok then p :: requestedAfter f ps else [p]

/-- Embeds getAll of cli.js: request page one, abort on a non-success
response, read the total page count from the response, then request pages
two to totalPages sequentially and concatenate all bodies in order.  The
guard totalPages greater than one of the source is absorbed by the range
being empty in that case. -/
def getAll (f : Nat → Response) : Except FetchError (List Item) :=
  let initialResponse := f 1
  if initialResponse.ok then
    match fetchPages f (List.range' 2 (initialResponse.totalPages - 1)) with
    | .ok rest => .ok (initialResponse.body ++ rest)
    | .error e => .error e
  else .error ⟨1, initialResponse.status⟩

/-- The pages requested over a whole getAll run, in request order. -/
def getAllRequests (f : Nat → Response) : List Nat :=
  if (f 1).ok then
    1 :: requestedAfter f (List.range' 2 ((f 1).totalPages - 1))
  else [1]

/-- A concrete two-page server for the pagination witness. -/
def c5Server : Nat → Response := fun p =>
  if p = 1 then ⟨true, 200, 2, [⟨0, "https://x/hb/", "hb", "A", "a"⟩]⟩
  else if p = 2 then ⟨true, 200, 2, [⟨1, "https://x/hb/p/", "p", "B", "b"⟩]⟩
  else ⟨false, 404, 0, []⟩

/-- A concrete three-page server whose second page fails, for the fetch
failure witness. -/
def c7Server : Nat → Response := fun p =>
  if p = 1 then ⟨true, 200, 3, [⟨0, "https://x/hb/", "hb", "A", "a"⟩]⟩
  else ⟨false, 500, 0, []⟩

/-! ### File materializer (generateFiles, lines 226 to 252 of cli.js) -/

/-- The per-item outcome of the materializer, as logged by cli.js. -/
inductive Outcome where
  | created
  | updated
  | skipped
deriving DecidableEq, Repr

/-- File contents of the modeled file system: first association wins, as a
lookup in a real directory tree does. -/
def lookupFile : List (String × String) → String → Option String
  | [], _ => none
  | (q, d) :: rest, p => if q = p then some d else lookupFile rest p

/-- Write a file: replace the association at path p, or append it. -/
def setFile : List (String × String) → String → String → List (String × String)
  | [], p, c => [(p, c)]
  | (q, d) :: rest, p, c =>
    if q = p then (p, c) :: rest else (q, d) :: setFile rest p c

/-- Embeds the try block of the per-item loop of generateFiles: read the
file at the final path; when the read fails with ENOENT, write and report
Created; when the existing content equals the new document, do nothing and
report Skipped; otherwise overwrite and report Updated. -/
def materializeFile (files : List (String × String)) (p md : String) :
    List (String × String) × Outcome :=
  match lookupFile files p with
  | none => (setFile files p md, .created)
  | some existingContent =>
    if existingContent = md then (files, .skipped)
    else (setFile files p md, .updated)

/-- The materializer applied to each path and document pair in collection
order, threading the file contents and collecting the outcomes. -/
def runMaterialize : List (String × String) → List (String × String) →
    List (String × String) × List Outcome
  | [], files => (files, [])
  | (p, md) :: rest, files =>
    let step := materializeFile files p md
    let next := runMaterialize rest step.1
    (next.1, step.2 :: next.2)

/-! ### Sync orchestrator (generateFiles, lines 165 to 254 of cli.js) -/

/-- Embeds the team normalization of generateFiles: a truthy team gains a
trailing slash, a falsy one becomes the empty string. -/
def normTeam (team : String) : String :=
  if team ≠ "" then team ++ "/" else ""

/-- Embeds the handbook default of generateFiles. -/
def normHandbook (handbook : String) : String :=
  if handbook ≠ "" then handbook else "handbook"

/-- Embeds the subdomain normalization of generateFiles: default make, the
literal w.org maps to no subdomain, and a dot is always appended. -/
def normSubdomain (subdomain : String) : String :=
  (if subdomain ≠ "" then (if subdomain = "w.org" then "" else subdomain)
   else "make") ++ "."

/-- Embeds the output directory default of generateFiles. -/
def normOutputDir (outputDir : String) : String :=
  if outputDir ≠ "" then outputDir else "en/"

/-- Embeds path.join of the two segments used by generateFiles; the
normalization of redundant separators that node performs is irrelevant for
the segments the tool builds. -/
def pathJoin (a b : String) : String :=
  if a = "" then b
  else if "/".data.isSuffixOf a.data then a ++ b
  else a ++ "/" ++ b

/-- Embeds path.dirname: the part of the path before the final slash, with
dot for a bare file name.  It is only ever recorded in the directory set of
the modeled file system. -/
def dirname (p : String) : String :=
  match p.data.reverse.dropWhile (fun c => c ≠ '/') with
  | [] => "."
  | _ :: rest => if rest.isEmpty then "/" else ⟨rest.reverse⟩

/-- The modeled file system: the set of directories that exist and the
association of file paths to contents. -/
structure FS where
  dirs : List String
  files : List (String × String)
deriving DecidableEq

/-- Whether a path lies at or below the given directory, the paths removed
by a recursive directory removal. -/
def underDir (dir p : String) : Bool :=
  p = dir ||
    (if "/".data.isSuffixOf dir.data then dir.data
     else dir.data ++ "/".data).isPrefixOf p.data

/-- Embeds the recursive forced rm of generateFiles in regenerate mode: the
output directory and everything below it disappear. -/
def rmTree (dir : String) (fs : FS) : FS :=
  { dirs := fs.dirs.filter (fun d => !underDir dir d),
    files := fs.files.filter (fun pc => !underDir dir pc.1) }

/-- Embeds a recursive mkdir: tolerant of the directory already existing,
and touching no files. -/
def mkdirp (dir : String) (fs : FS) : FS :=
  { fs with dirs := if fs.dirs.contains dir then fs.dirs else dir :: fs.dirs }

/-- The directory creations of the per-item loop, performed in sequence
over the path list. -/
def addDirs : List String → FS → FS
  | [], fs => fs
  | d :: ds, fs => addDirs ds (mkdirp d fs)

/-- The terminal state of one generateFiles run: an uncaught fetch error, the
process exit with status one on an empty collection, or the per-item
outcome list of a completed run. -/
inductive RunResult where
  | fetchFailed (e : FetchError)
  | emptyExit
  | success (outcomes : List Outcome)
deriving DecidableEq

/-- Embeds the document construction of the per-item loop: a level one
heading from the title, a blank line, and the converted body.  The generic
turndown conversion is the abstracted render parameter. -/
def renderedDoc (render : String → String) (item : Item) : String :=
  "# " ++ item.title ++ "\n\n" ++ render item.content

/-- The path and document pair of every item of a run, in collection order,
using the normalized configuration: the resolved path with the md extension
joined onto the output directory, and the rendered document. -/
def runPairs (team handbook subdomain outputDir : String)
    (render : String → String) (posts : List Item) : List (String × String) :=
  let rootPath := rootPathOf (normSubdomain subdomain) (normTeam team)
    (normHandbook handbook) posts
  posts.map (fun item =>
    (pathJoin (normOutputDir outputDir) (itemPath rootPath item ++ ".md"),
     renderedDoc render item))

/-- Decidable collision compatibility: any two pairs sharing a path carry
the same document. -/
def pairsCompatible (pairs : List (String × String)) : Bool :=
  pairs.all fun a => pairs.all fun b => (a.1 != b.1) || (a.2 == b.2)

/-- Embeds generateFiles of cli.js over the modeled file system: normalize
the configuration, remove the output directory when regenerate is set,
create it, fetch all pages, exit with failure on an empty collection, and
otherwise resolve, render and materialize every item in order.  The
directory creation of each loop iteration only touches the directory set
and each write only the file association, so performing the directory
creations before the writes leaves every state and outcome unchanged. -/
def generateFiles (team handbook subdomain outputDir : String)
    (regenerate : Bool) (render : String → String) (f : Nat → Response)
    (fs0 : FS) : FS × RunResult :=
  let outputDirN := normOutputDir outputDir
  let fs1 := if regenerate then rmTree outputDirN fs0 else fs0
  let fs2 := mkdirp outputDirN fs1
  match getAll f with
  | .error e => (fs2, .fetchFailed e)
  | .ok allPosts =>
    if allPosts.length = 0 then (fs2, .emptyExit)
    else
      let pairs := runPairs team handbook subdomain outputDir render allPosts
      let fs3 := addDirs (pairs.map fun pc => dirname pc.1) fs2
      let res := runMaterialize pairs fs3.files
      ({ fs3 with files := res.1 }, .success res.2)

/-- A server with two items resolving to the same path with different
documents, for the idempotence counterexample. -/
def c3Server : Nat → Response := fun _ =>
  ⟨true, 200, 1, [⟨0, "https://x/hb/", "hb", "A", "one"⟩,
                  ⟨0, "https://x/hb/", "hb", "B", "two"⟩]⟩

/-- A collision-free single-item server, for the idempotence witness. -/
def c3OkServer : Nat → Response := fun _ =>
  ⟨true, 200, 1, [⟨0, "https://x/hb/", "hb", "A", "a"⟩]⟩

/-- A server whose fetch succeeds with zero items. -/
def cEmptyServer : Nat → Response := fun _ => ⟨true, 200, 1, []⟩

/-- A server whose first page request fails with status 500. -/
def cFailServer : Nat → Response := fun _ => ⟨false, 500, 0, []⟩

/-- A pre-existing output directory holding one file, for the regenerate
counterexample and witness. -/
def cPreFS : FS := ⟨["en/"], [("en/old.md", "x")]⟩

end Wp

namespace Wp

/-! ### Theorems -/

/-- Claim C1, counterexample: on the two-item collection of the example,
the resolver of cli.js does not assign index and sub-page; the root path
keeps only the part of the root link strictly before the slug, so the slug
segment survives in every resolved path. -/
theorem c1_counterexample :
    c1Items.map (itemPath (rootPathOf "make." "" "handbook" c1Items))
      ≠ ["index", "sub-page"] := by decide

/-- Claim C1, amended: on the two-item collection of the example, the root
path is the part of the root link before its slug, and the resolved paths
are hb and hb/sub-page. -/
theorem c1_amended :
    rootPathOf "make." "" "handbook" c1Items = "https://x/team/" ∧
    c1Items.map (itemPath (rootPathOf "make." "" "handbook" c1Items))
      = ["hb", "hb/sub-page"] := by decide

/-- Helper for claim C2: a fold that overwrites its accumulator at every
matching element returns the value of the last matching element, that is
the first match of the reversed list. -/
theorem foldl_overwrite_eq_reverse_find {α β : Type} (p : α → Bool) (f : α → β)
    (l : List α) (acc : Option β) :
    l.foldl (fun cur kv => if p kv then some (f kv) else cur) acc
      = match l.reverse.find? p with
        | some kv => some (f kv)
        | none => acc := by
  induction l generalizing acc with
  | nil => simp
  | cons hd tl ih =>
    simp only [List.foldl_cons, List.reverse_cons, List.find?_append, ih]
    cases htl : tl.reverse.find? p with
    | some kv => simp [htl]
    | none =>
      cases hhd : p hd <;> simp [htl, List.find?, hhd]

/-- Claim C2, amended: the language tag of a brush code block is determined
by scanning the fixed substring mapping against the class attribute, and
the last match in the mapping order wins, equivalently the first match of
the reversed mapping; when no substring of the mapping occurs in the class
attribute, no language is inferred and no tag is emitted. -/
theorem c2_last_match_wins (classList : String) :
    inferLanguage classList
      = (codeLanguages.reverse.find?
          (fun kv => jsIncludes classList.data kv.1.data)).map Prod.snd := by
  unfold inferLanguage
  rw [foldl_overwrite_eq_reverse_find (fun kv => jsIncludes classList.data kv.1.data)
    Prod.snd codeLanguages none]
  cases codeLanguages.reverse.find? (fun kv => jsIncludes classList.data kv.1.data) <;> simp

/-- Claim C2, witness: the amended statement instantiated at a concrete
class attribute. -/
theorem c2_last_match_wins_witness :
    inferLanguage "brush: php"
      = (codeLanguages.reverse.find?
          (fun kv => jsIncludes "brush: php".data kv.1.data)).map Prod.snd :=
  c2_last_match_wins "brush: php"

/-- Claim C2, counterexample: a class attribute containing both css and
bash yields bash, the later key of the mapping, not css as first-match
semantics would give. -/
theorem c2_counterexample :
    inferLanguage "brush: css bash" = some "bash" ∧
    inferLanguage "brush: css bash" ≠ some "css" := by decide

/-- Claim C8: the pre element with class brush: bash and content echo hi is
accepted by the precode rule filter, and its replacement is a fenced block
opening with a bash language fence, containing echo hi, closed by a bare
fence. -/
theorem c8_code_block_example :
    precodeFilter "PRE" (some "brush: bash") = true ∧
    precodeReplacement "echo hi" "brush: bash"
      = "```bash" ++ "\n" ++ "echo hi" ++ "```" := by decide

/-- Helper: the range of the naturals from one to k is one followed by the
range from two of length k minus one. -/
theorem range'_one_cons (k : Nat) (hk : 1 ≤ k) :
    List.range' 1 k = 1 :: List.range' 2 (k - 1) := by
  obtain ⟨m, rfl⟩ : ∃ m, k = m + 1 := ⟨k - 1, by omega⟩
  simp [List.range'_succ]

/-- Helper: on a list of pages that all respond successfully, the page loop
succeeds with the concatenation of the bodies in page order and requests
exactly the pages of the list. -/
theorem fetchPages_all_ok (f : Nat → Response) (ps : List Nat)
    (hok : ∀ p ∈ ps, (f p).ok = true) :
    fetchPages f ps = .ok ((ps.map fun p => (f p).body).flatten) ∧
    requestedAfter f ps = ps := by
  induction ps with
  | nil => simp [fetchPages, requestedAfter]
  | cons p ps ih =>
    have hp : (f p).ok = true := hok p (List.mem_cons_self p ps)
    have ihs := ih (fun q hq => hok q (List.mem_cons_of_mem p hq))
    simp [fetchPages, requestedAfter, hp, ihs.1, ihs.2]

/-- Helper: on a range of pages whose first failure is page q, the page
loop aborts with the error carrying q and its status, after requesting
exactly the pages up to and including q. -/
theorem fetchPages_first_fail (f : Nat → Response) (q : Nat)
    (hfail : (f q).ok = false) :
    ∀ (n s : Nat), s ≤ q → q < s + n →
    (∀ p, s ≤ p → p < q → (f p).ok = true) →
    fetchPages f (List.range' s n) = .error ⟨q, (f q).status⟩ ∧
    requestedAfter f (List.range' s n) = List.range' s (q - s + 1) := by
  intro n
  induction n with
  | zero => intro s hsq hlt _; omega
  | succ m ih =>
    intro s hsq hlt hbefore
    rw [List.range'_succ]
    by_cases hsq2 : s = q
    · rw [hsq2]
      have harith : q - q + 1 = 1 := by omega
      simp [fetchPages, requestedAfter, hfail, harith, List.range'_succ]
    · have hslt : s < q := by omega
      have hs : (f s).ok = true := hbefore s (le_refl s) hslt
      have ihs := ih (s + 1) (by omega) (by omega)
        (fun p hp1 hp2 => hbefore p (by omega) hp2)
      constructor
      · simp only [fetchPages, hs, if_true, ihs.1]
      · have harith : q - s + 1 = (q - (s + 1) + 1) + 1 := by omega
        rw [harith, List.range'_succ]
        simp only [requestedAfter, hs, if_true, ihs.2]

/-- Claim C5: for a collection of P pages whose responses all succeed, with
the total page count read from the page one response, getAll requests
exactly the pages one to P in order and returns the concatenation of all
page bodies, preserving page order and within-page order. -/
theorem c5_pagination (f : Nat → Response) (P : Nat) (hP : 1 ≤ P)
    (htp : (f 1).totalPages = P)
    (hok : ∀ p, 1 ≤ p → p ≤ P → (f p).ok = true) :
    getAll f = .ok (((List.range' 1 P).map fun p => (f p).body).flatten) ∧
    getAllRequests f = List.range' 1 P ∧
    (getAllRequests f).length = P := by
  have h1 : (f 1).ok = true := hok 1 (le_refl 1) hP
  have hrange := range'_one_cons P hP
  have hloop := fetchPages_all_ok f (List.range' 2 (P - 1))
    (fun p hp => by
      rw [List.mem_range'_1] at hp
      exact hok p (by omega) (by omega))
  refine ⟨?_, ?_, ?_⟩
  · simp only [getAll, h1, if_true, htp, hloop.1, hrange, List.map_cons,
      List.flatten_cons]
  · simp only [getAllRequests, h1, if_true, htp, hloop.2, hrange]
  · simp only [getAllRequests, h1, if_true, htp, hloop.2, List.length_cons,
      List.length_range']
    omega

/-- Claim C5, witness: a concrete two-page collection with distinct items,
fetched completely and in order with exactly two requests. -/
theorem c5_pagination_witness :
    getAll c5Server
      = .ok (((List.range' 1 2).map fun p => (c5Server p).body).flatten) ∧
    getAllRequests c5Server = List.range' 1 2 ∧
    (getAllRequests c5Server).length = 2 :=
  c5_pagination c5Server 2 (by decide) (by decide)
    (by intro p h1 h2; interval_cases p <;> decide)

/-- Claim C7: when page q is the first page whose response is non-success,
getAll aborts with the error carrying page q and its status, the requested
pages are exactly one to q, so no later page is requested and no retry
occurs, and no item list is produced. -/
theorem c7_fetch_failure (f : Nat → Response) (P q : Nat)
    (htp : (f 1).totalPages = P)
    (hq : q = 1 ∨ (2 ≤ q ∧ q ≤ P))
    (hfail : (f q).ok = false)
    (hbefore : ∀ p, 1 ≤ p → p < q → (f p).ok = true) :
    getAll f = .error ⟨q, (f q).status⟩ ∧
    getAllRequests f = List.range' 1 q := by
  rcases hq with hq1 | ⟨hq2, hqP⟩
  · subst hq1
    simp [getAll, getAllRequests, hfail, List.range'_succ]
  · have h1 : (f 1).ok = true := hbefore 1 (le_refl 1) (by omega)
    have hloop := fetchPages_first_fail f q hfail (P - 1) 2 hq2 (by omega)
      (fun p hp1 hp2 => hbefore p (by omega) hp2)
    constructor
    · simp only [getAll, h1, if_true, htp, hloop.1]
    · have hrange := range'_one_cons q (by omega)
      have harith : q - 2 + 1 = q - 1 := by omega
      simp only [getAllRequests, h1, if_true, htp, hloop.2, harith, hrange]

/-- Claim C7, witness: a concrete three-page collection whose second page
responds with status 500; the fetch aborts there after two requests. -/
theorem c7_fetch_failure_witness :
    getAll c7Server = .error ⟨2, (c7Server 2).status⟩ ∧
    getAllRequests c7Server = List.range' 1 2 :=
  c7_fetch_failure c7Server 3 2 (by decide) (by decide) (by decide)
    (by intro p h1 h2; interval_cases p; decide)

/-- Helper: a write is visible at its own path. -/
theorem lookupFile_setFile_self (files : List (String × String)) (p md : String) :
    lookupFile (setFile files p md) p = some md := by
  induction files with
  | nil => simp [setFile, lookupFile]
  | cons hd rest ih =>
    rcases hd with ⟨q, d⟩
    by_cases h : q = p
    · simp [setFile, lookupFile, h]
    · simp [setFile, lookupFile, h, ih]

/-- Helper: a write leaves every other path unchanged. -/
theorem lookupFile_setFile_ne (files : List (String × String)) (p md q : String)
    (h : q ≠ p) :
    lookupFile (setFile files p md) q = lookupFile files q := by
  induction files with
  | nil => simp [setFile, lookupFile, Ne.symm h]
  | cons hd rest ih =>
    rcases hd with ⟨a, b⟩
    by_cases ha : a = p
    · subst ha
      simp [setFile, lookupFile, Ne.symm h]
    · simp [setFile, lookupFile, ha, ih]

/-- Claim C4: the materializer realizes the exact trichotomy of the spec.
The outcome is Created precisely when no file exists at the resolved path,
Skipped precisely when the existing content equals the rendered document,
and Updated precisely when different content exists; the state is unchanged
in the Skipped case and is the write of the document otherwise; and after
the operation the file at the path always equals the document. -/
theorem c4_trichotomy (files : List (String × String)) (p md : String) :
    ((materializeFile files p md).2 = .created ↔ lookupFile files p = none) ∧
    ((materializeFile files p md).2 = .skipped ↔ lookupFile files p = some md) ∧
    ((materializeFile files p md).2 = .updated ↔
      ∃ c, lookupFile files p = some c ∧ c ≠ md) ∧
    (materializeFile files p md).1
      = (if lookupFile files p = some md then files else setFile files p md) ∧
    lookupFile (materializeFile files p md).1 p = some md := by
  rcases h : lookupFile files p with _ | c
  · simp [materializeFile, h, lookupFile_setFile_self]
  · by_cases hc : c = md
    · subst hc
      simp [materializeFile, h]
    · simp [materializeFile, h, hc, lookupFile_setFile_self, Ne.symm hc]

/-- Claim C4, witness: the trichotomy instantiated at a state holding one
file with different content, where the outcome is Updated. -/
theorem c4_trichotomy_witness :
    ((materializeFile [("a", "x")] "a" "y").2 = .created ↔
      lookupFile [("a", "x")] "a" = none) ∧
    ((materializeFile [("a", "x")] "a" "y").2 = .skipped ↔
      lookupFile [("a", "x")] "a" = some "y") ∧
    ((materializeFile [("a", "x")] "a" "y").2 = .updated ↔
      ∃ c, lookupFile [("a", "x")] "a" = some c ∧ c ≠ "y") ∧
    (materializeFile [("a", "x")] "a" "y").1
      = (if lookupFile [("a", "x")] "a" = some "y" then [("a", "x")]
         else setFile [("a", "x")] "a" "y") ∧
    lookupFile (materializeFile [("a", "x")] "a" "y").1 "a" = some "y" :=
  c4_trichotomy [("a", "x")] "a" "y"

/-- Claim C10: when the first item whose parent is zero exists but its link
or slug is missing, root determination never splits that link; the resolver
uses the synthesized fallback root path built from the configuration. -/
theorem c10_missing_root_fallback (subdomain team handbook : String)
    (posts : List Item) (rootItem : Item)
    (hfind : posts.find? (fun item => item.parent == 0) = some rootItem)
    (hmiss : rootItem.link = "" ∨ rootItem.slug = "") :
    rootPathOf subdomain team handbook posts
      = fallbackRootPath subdomain team handbook := by
  unfold rootPathOf
  rw [hfind]
  rcases hmiss with h | h <;> simp [h]

/-- Claim C10, witness: a root item with an empty link resolves to the
synthesized fallback. -/
theorem c10_missing_root_fallback_witness :
    rootPathOf "make." "" "handbook" [⟨0, "", "hb", "", ""⟩]
      = fallbackRootPath "make." "" "handbook" :=
  c10_missing_root_fallback "make." "" "handbook" [⟨0, "", "hb", "", ""⟩]
    ⟨0, "", "hb", "", ""⟩ (by decide) (Or.inl rfl)

/-- Claim C6, counterexample: with the regenerate flag set, a run whose
fetch returns zero items still exits with failure, but the pre-existing
contents of the output directory are gone, so the directory is not left
untouched beyond its own creation. -/
theorem c6_counterexample :
    (generateFiles "" "" "" "" true id cEmptyServer cPreFS).2
      = RunResult.emptyExit ∧
    (generateFiles "" "" "" "" true id cEmptyServer cPreFS).1.files
      ≠ cPreFS.files := by decide

/-- Claim C6, amended: when the regenerate flag is not set and the fetch
succeeds with zero items, the run terminates with the failure exit, writes
no files, and changes the state only by creating the output directory. -/
theorem c6_empty_termination (team handbook subdomain outputDir : String)
    (render : String → String) (f : Nat → Response) (fs0 : FS)
    (hfetch : getAll f = .ok []) :
    generateFiles team handbook subdomain outputDir false render f fs0
      = (mkdirp (normOutputDir outputDir) fs0, RunResult.emptyExit) ∧
    (generateFiles team handbook subdomain outputDir false render f fs0).1.files
      = fs0.files := by
  constructor
  · simp [generateFiles, hfetch]
  · simp [generateFiles, hfetch, mkdirp]

/-- Claim C6, witness: the amended statement at a concrete empty-collection
server and empty initial state. -/
theorem c6_empty_termination_witness :
    generateFiles "" "" "" "" false id cEmptyServer ⟨[], []⟩
      = (mkdirp (normOutputDir "") ⟨[], []⟩, RunResult.emptyExit) ∧
    (generateFiles "" "" "" "" false id cEmptyServer ⟨[], []⟩).1.files
      = (⟨[], []⟩ : FS).files :=
  c6_empty_termination "" "" "" "" id cEmptyServer ⟨[], []⟩ rfl

/-- Claim C9: with the regenerate flag set, the recursive removal of the
output directory happens before the first page request, so when the fetch
fails or returns zero items the previous contents below the output
directory are already deleted and are not restored: the final file
association is the initial one with everything below the output directory
filtered away, and no per-item outcome list is produced. -/
theorem c9_regenerate_deletes_before_fetch
    (team handbook subdomain outputDir : String)
    (render : String → String) (f : Nat → Response) (fs0 : FS)
    (hfail : (∃ e, getAll f = .error e) ∨ getAll f = .ok []) :
    (generateFiles team handbook subdomain outputDir true render f fs0).1.files
      = fs0.files.filter (fun pc => !underDir (normOutputDir outputDir) pc.1) ∧
    ∀ os, (generateFiles team handbook subdomain outputDir true render f fs0).2
      ≠ RunResult.success os := by
  rcases hfail with ⟨e, he⟩ | he <;>
    simp [generateFiles, he, mkdirp, rmTree]

/-- Claim C9, witness: a failing fetch after a regenerate wipe of a
directory holding one stale file leaves the file deleted. -/
theorem c9_regenerate_deletes_before_fetch_witness :
    (generateFiles "" "" "" "" true id cFailServer cPreFS).1.files
      = cPreFS.files.filter (fun pc => !underDir (normOutputDir "") pc.1) ∧
    ∀ os, (generateFiles "" "" "" "" true id cFailServer cPreFS).2
      ≠ RunResult.success os :=
  c9_regenerate_deletes_before_fetch "" "" "" "" id cFailServer cPreFS
    (Or.inl ⟨⟨1, 500⟩, rfl⟩)

/-- Helper: a directory creation touches no files. -/
theorem mkdirp_files (d : String) (fs : FS) : (mkdirp d fs).files = fs.files := rfl

/-- Helper: the directory creations of a run touch no files. -/
theorem addDirs_files (ds : List String) : ∀ fs : FS, (addDirs ds fs).files = fs.files := by
  induction ds with
  | nil => intro fs; rfl
  | cons d ds ih => intro fs; exact ih (mkdirp d fs)

/-- Helper: after a directory creation the directory exists. -/
theorem mkdirp_contains_self (d : String) (fs : FS) :
    (mkdirp d fs).dirs.contains d = true := by
  by_cases h : d ∈ fs.dirs <;> simp [mkdirp, h]

/-- Helper: a directory creation keeps every existing directory. -/
theorem mkdirp_contains_mono (d e : String) (fs : FS)
    (h : fs.dirs.contains e = true) : (mkdirp d fs).dirs.contains e = true := by
  have hm : e ∈ fs.dirs := by simpa using h
  by_cases hd : d ∈ fs.dirs <;> simp [mkdirp, hd, hm]

/-- Helper: creating a directory that exists is a no-op. -/
theorem mkdirp_of_contains (d : String) (fs : FS)
    (h : fs.dirs.contains d = true) : mkdirp d fs = fs := by
  have hm : d ∈ fs.dirs := by simpa using h
  cases fs with
  | mk dirs files => simp [mkdirp, hm]

/-- Helper: the directory creations of a run keep every existing directory. -/
theorem addDirs_contains_mono (ds : List String) :
    ∀ (fs : FS) (e : String), fs.dirs.contains e = true →
    (addDirs ds fs).dirs.contains e = true := by
  induction ds with
  | nil => intro fs e h; exact h
  | cons d ds ih =>
    intro fs e h
    exact ih (mkdirp d fs) e (mkdirp_contains_mono d e fs h)

/-- Helper: after the directory creations of a run, every directory of the
list exists. -/
theorem addDirs_contains_mem (ds : List String) :
    ∀ (fs : FS) (e : String), e ∈ ds → (addDirs ds fs).dirs.contains e = true := by
  induction ds with
  | nil => intro fs e h; simp at h
  | cons d ds ih =>
    intro fs e h
    rcases List.mem_cons.mp h with rfl | hmem
    · exact addDirs_contains_mono ds (mkdirp e fs) e (mkdirp_contains_self e fs)
    · exact ih (mkdirp d fs) e hmem

/-- Helper: directory creations over directories that all exist are a
no-op. -/
theorem addDirs_of_all_contains (ds : List String) :
    ∀ fs : FS, (∀ e ∈ ds, fs.dirs.contains e = true) → addDirs ds fs = fs := by
  induction ds with
  | nil => intro fs _; rfl
  | cons d ds ih =>
    intro fs h
    show addDirs ds (mkdirp d fs) = fs
    rw [mkdirp_of_contains d fs (h d (List.mem_cons_self _ _))]
    exact ih fs (fun e he => h e (List.mem_cons_of_mem _ he))

/-- Helper: a materialization is visible at its own path. -/
theorem lookupFile_materializeFile_self (files : List (String × String))
    (p md : String) :
    lookupFile (materializeFile files p md).1 p = some md := by
  unfold materializeFile
  rcases h : lookupFile files p with _ | c
  · simpa using lookupFile_setFile_self files p md
  · by_cases hc : c = md
    · subst hc
      simpa using h
    · simpa [hc] using lookupFile_setFile_self files p md

/-- Helper: a materialization leaves every other path unchanged. -/
theorem lookupFile_materializeFile_ne (files : List (String × String))
    (q md p : String) (h : q ≠ p) :
    lookupFile (materializeFile files q md).1 p = lookupFile files p := by
  unfold materializeFile
  rcases hq : lookupFile files q with _ | c
  · simpa using lookupFile_setFile_ne files q md p (Ne.symm h)
  · by_cases hc : c = md
    · simp [hc]
    · simpa [hc] using lookupFile_setFile_ne files q md p (Ne.symm h)

/-- Helper: the materializer leaves paths outside the pair list unchanged. -/
theorem runMaterialize_lookup_not_mem (pairs : List (String × String)) :
    ∀ (files : List (String × String)) (p : String),
    p ∉ pairs.map Prod.fst →
    lookupFile (runMaterialize pairs files).1 p = lookupFile files p := by
  induction pairs with
  | nil => intro files p _; rfl
  | cons hd rest ih =>
    rcases hd with ⟨q, md⟩
    intro files p hp
    have hq : q ≠ p := by
      intro h
      exact hp (by simp [h])
    have hrest : p ∉ rest.map Prod.fst := by
      intro h
      apply hp
      simp only [List.map_cons, List.mem_cons]
      exact Or.inr h
    simp only [runMaterialize]
    rw [ih (materializeFile files q md).1 p hrest]
    exact lookupFile_materializeFile_ne files q md p hq

/-- Helper: when any two pairs with the same path carry the same document,
the materializer leaves every listed path holding its document. -/
theorem runMaterialize_lookup_mem (pairs : List (String × String))
    (H : ∀ p m1 m2, (p, m1) ∈ pairs → (p, m2) ∈ pairs → m1 = m2) :
    ∀ (files : List (String × String)) (p m : String), (p, m) ∈ pairs →
    lookupFile (runMaterialize pairs files).1 p = some m := by
  induction pairs with
  | nil => intro files p m hm; simp at hm
  | cons hd rest ih =>
    rcases hd with ⟨q, md⟩
    intro files p m hm
    have Hrest : ∀ p m1 m2, (p, m1) ∈ rest → (p, m2) ∈ rest → m1 = m2 :=
      fun p m1 m2 h1 h2 =>
        H p m1 m2 (List.mem_cons_of_mem _ h1) (List.mem_cons_of_mem _ h2)
    simp only [runMaterialize]
    rcases List.mem_cons.mp hm with heq | hmem
    · have hpq : p = q := congrArg Prod.fst heq
      have hmmd : m = md := congrArg Prod.snd heq
      by_cases hmem2 : p ∈ rest.map Prod.fst
      · obtain ⟨pair, hpair, hfst⟩ := List.mem_map.mp hmem2
        have hpr : (p, pair.2) ∈ rest := by
          have hpair2 : pair = (p, pair.2) := by
            rcases pair with ⟨a, b⟩
            simp only at hfst
            simp [hfst]
          rw [← hpair2]
          exact hpair
        have hval : pair.2 = m :=
          H p pair.2 m (List.mem_cons_of_mem _ hpr) hm
        rw [ih Hrest (materializeFile files q md).1 p pair.2 hpr, hval]
      · rw [runMaterialize_lookup_not_mem rest (materializeFile files q md).1 p hmem2]
        rw [hpq, hmmd]
        exact lookupFile_materializeFile_self files q md
    · exact ih Hrest (materializeFile files q md).1 p m hmem

/-- Helper: when every listed path already holds its document, the
materializer changes nothing and reports Skipped throughout. -/
theorem runMaterialize_all_skipped (pairs : List (String × String)) :
    ∀ files : List (String × String),
    (∀ p m, (p, m) ∈ pairs → lookupFile files p = some m) →
    runMaterialize pairs files = (files, pairs.map fun _ => Outcome.skipped) := by
  induction pairs with
  | nil => intro files _; rfl
  | cons hd rest ih =>
    rcases hd with ⟨q, md⟩
    intro files H
    have hq : lookupFile files q = some md := H q md (List.mem_cons_self _ _)
    have hmat : materializeFile files q md = (files, Outcome.skipped) := by
      simp [materializeFile, hq]
    simp only [runMaterialize, hmat]
    rw [ih files (fun p m hm => H p m (List.mem_cons_of_mem _ hm))]
    simp

/-- Helper: mapping a constant over a mapped list equals mapping it over
the original list. -/
theorem map_const_map {α β γ : Type} (g : α → β) (c : γ) (l : List α) :
    (l.map g).map (fun _ => c) = l.map fun _ => c := by
  induction l with
  | nil => rfl
  | cons hd tl ih => simp [ih]

/-- Helper: the Boolean collision compatibility check implies the
propositional one. -/
theorem pairsCompatible_spec (pairs : List (String × String))
    (h : pairsCompatible pairs = true) :
    ∀ p m1 m2, (p, m1) ∈ pairs → (p, m2) ∈ pairs → m1 = m2 := by
  intro p m1 m2 h1 h2
  have ha := (List.all_eq_true.mp h) (p, m1) h1
  have hb := (List.all_eq_true.mp ha) (p, m2) h2
  simpa using hb

/-- Helper: the state and outcome of a successful run, in closed form: the
directory creations on the directory set, the materializer on the file
association, and the Success outcome list. -/
theorem generateFiles_ok_eq (team handbook subdomain outputDir : String)
    (render : String → String) (f : Nat → Response) (fs0 : FS)
    (posts : List Item) (hfetch : getAll f = .ok posts) (hne : posts ≠ []) :
    generateFiles team handbook subdomain outputDir false render f fs0
      = (⟨(addDirs ((runPairs team handbook subdomain outputDir render posts).map
            fun pc => dirname pc.1) (mkdirp (normOutputDir outputDir) fs0)).dirs,
          (runMaterialize (runPairs team handbook subdomain outputDir render posts)
            fs0.files).1⟩,
         RunResult.success
          (runMaterialize (runPairs team handbook subdomain outputDir render posts)
            fs0.files).2) := by
  have hlen : posts.length ≠ 0 := by
    simpa [List.length_eq_zero] using hne
  simp [generateFiles, hfetch, hlen, addDirs_files, mkdirp_files]

/-- Claim C3, counterexample: a collection with two items resolving to the
same path with different rendered documents completes its first run, yet
the second run against the unchanged collection and the state left by the
first run reports Updated for both items, not Skipped; and with the
regenerate flag set, even a collision-free collection reports Created
again on the second run, because the wipe empties the directory first. -/
theorem c3_counterexample :
    ((generateFiles "" "" "" "" false id c3Server
        (generateFiles "" "" "" "" false id c3Server ⟨[], []⟩).1).2
      = RunResult.success [Outcome.updated, Outcome.updated] ∧
    (generateFiles "" "" "" "" false id c3Server
        (generateFiles "" "" "" "" false id c3Server ⟨[], []⟩).1).2
      ≠ RunResult.success [Outcome.skipped, Outcome.skipped]) ∧
    (generateFiles "" "" "" "" true id c3OkServer
        (generateFiles "" "" "" "" true id c3OkServer ⟨[], []⟩).1).2
      = RunResult.success [Outcome.created] := by decide

/-- Helper: a run over a state that already contains the output directory,
every per-item directory, and every document at its path, changes nothing
and reports Skipped for every item. -/
theorem generateFiles_rerun_aux (team handbook subdomain outputDir : String)
    (render : String → String) (f : Nat → Response)
    (posts : List Item) (hfetch : getAll f = .ok posts) (hne : posts ≠ [])
    (D : FS)
    (hdirs1 : D.dirs.contains (normOutputDir outputDir) = true)
    (hdirs2 : ∀ e ∈ (runPairs team handbook subdomain outputDir render posts).map
      (fun pc => dirname pc.1), D.dirs.contains e = true)
    (hfiles : ∀ p m,
      (p, m) ∈ runPairs team handbook subdomain outputDir render posts →
      lookupFile D.files p = some m) :
    generateFiles team handbook subdomain outputDir false render f D
      = (D, RunResult.success (posts.map fun _ => Outcome.skipped)) := by
  rw [generateFiles_ok_eq team handbook subdomain outputDir render f D posts hfetch hne]
  rw [mkdirp_of_contains (normOutputDir outputDir) D hdirs1]
  rw [addDirs_of_all_contains _ D hdirs2]
  rw [runMaterialize_all_skipped _ D.files hfiles]
  have hmapconst : (runPairs team handbook subdomain outputDir render posts).map
      (fun _ => Outcome.skipped) = posts.map fun _ => Outcome.skipped :=
    map_const_map _ Outcome.skipped posts
  simp [hmapconst]

/-- Claim C3, amended: when the regenerate flag is not set and any two
items resolving to the same path carry the same rendered document, a
second run of the orchestrator against the unchanged collection and the
state left by a completed first run changes nothing and reports Skipped
for every item.  Rendering is a function of the item alone, so it is
deterministic and independent of call order by construction. -/
theorem c3_idempotent_rerun (team handbook subdomain outputDir : String)
    (render : String → String) (f : Nat → Response) (fs0 : FS)
    (posts : List Item)
    (hfetch : getAll f = .ok posts) (hne : posts ≠ [])
    (hcomp : pairsCompatible
      (runPairs team handbook subdomain outputDir render posts) = true) :
    generateFiles team handbook subdomain outputDir false render f
        (generateFiles team handbook subdomain outputDir false render f fs0).1
      = ((generateFiles team handbook subdomain outputDir false render f fs0).1,
         RunResult.success (posts.map fun _ => Outcome.skipped)) := by
  have H := pairsCompatible_spec _ hcomp
  rw [generateFiles_ok_eq team handbook subdomain outputDir render f fs0
    posts hfetch hne]
  exact generateFiles_rerun_aux team handbook subdomain outputDir render f
    posts hfetch hne
    ⟨(addDirs ((runPairs team handbook subdomain outputDir render posts).map
        fun pc => dirname pc.1) (mkdirp (normOutputDir outputDir) fs0)).dirs,
     (runMaterialize (runPairs team handbook subdomain outputDir render posts)
        fs0.files).1⟩
    (addDirs_contains_mono _ _ _ (mkdirp_contains_self _ _))
    (fun e he => addDirs_contains_mem _ _ e he)
    (fun p m hm => runMaterialize_lookup_mem _ H fs0.files p m hm)

/-- Claim C3, witness: the amended statement at a concrete collision-free
single-item server, starting from the empty state. -/
theorem c3_idempotent_rerun_witness :
    generateFiles "" "" "" "" false id c3OkServer
        (generateFiles "" "" "" "" false id c3OkServer ⟨[], []⟩).1
      = ((generateFiles "" "" "" "" false id c3OkServer ⟨[], []⟩).1,
         RunResult.success (([⟨0, "https://x/hb/", "hb", "A", "a"⟩] : List Item).map
           fun _ => Outcome.skipped)) :=
  c3_idempotent_rerun "" "" "" "" id c3OkServer ⟨[], []⟩
    [⟨0, "https://x/hb/", "hb", "A", "a"⟩] rfl (by decide) (by decide)

end Wp
